import Mathlib

/-!
Shallow embedding of the accessibility-checking pipeline of this repository:
redirect resolution (`resolve_redirect_with_selenium`), flat playlist
enumeration (`__fetch_video_urls`), cached per-video probing
(`__check_video_accessible`), concurrent dispatch and partitioning
(`__check_videos_async`), and the entry point `check_videos`.

The repository holds two copies of the pipeline: `scripts/check_accesible.py`
(the package version, with a module-level probe cache and a Selenium redirect
resolver in front of the orchestrator) and a root-level `check_accesible.py`
(with a function-local cache and no resolver call in `check_videos`).  The
definitions below follow the `scripts/` version; where the root-level file
differs in a way a claim depends on (the probe cache), the root-level variant
is embedded separately under a `_root_level` suffix.

External effects are modelled as explicit oracles: the Selenium outcome, the
outcome of the flat `extract_info` call, the per-URL outcome of the probing
`extract_info` call, `os.cpu_count()`, and the sequence of worker-task results
in completion order.  A `Trace` value records, per run, how many enumeration
calls were made, whether a worker pool was created and with how many workers,
and how many probe futures were submitted.
-/

namespace YTCheck

/-! ## Python `str.replace` on character lists -/

/-- One left-to-right pass of Python `str.replace` over a character list:
at each position, if `old` matches there, emit `new` and resume scanning after
the matched segment, otherwise keep the character.  `fuel` bounds the number of
scanning steps; the pattern used by the program (`"www.youtube"`) is non-empty,
so every step consumes at least one character and `fuel = s.length` suffices. -/
def replaceAllFuel (old new : List Char) : Nat → List Char → List Char
  | _, [] => []
  | 0, s => s
  | fuel + 1, c :: rest =>
    if old.isPrefixOf (c :: rest) then
      new ++ replaceAllFuel old new fuel ((c :: rest).drop old.length)
    else
      c :: replaceAllFuel old new fuel rest

/-- The substring rewritten by the dispatcher. -/
def hostPattern : List Char := "www.youtube".data

/-- The replacement written by the dispatcher. -/
def hostReplacement : List Char := "music.youtube".data

/-- Model of `url_result.replace('www.youtube', 'music.youtube')` from the
`as_completed` loop of `__check_videos_async`: every occurrence of the
substring `www.youtube` is replaced by `music.youtube`. -/
def rewriteHost (s : String) : String :=
  String.mk (replaceAllFuel hostPattern hostReplacement s.data.length s.data)

/-- Whether `old` occurs as a contiguous substring of `s`. -/
def containsSub (old : List Char) : List Char → Bool
  | [] => old.isPrefixOf []
  | c :: rest => old.isPrefixOf (c :: rest) || containsSub old rest

/-- Holds when `old` and `q` disagree somewhere inside their overlap, so that
no occurrence of `old` can start at `q` whatever characters follow `q`. -/
def clash (old q : List Char) : Bool :=
  !(old.isPrefixOf q || q.isPrefixOf old)

/-! ## Redirect resolver (`resolve_redirect_with_selenium`) -/

/-- Behaviours of the Selenium collaborator: driver creation fails
(`WebDriverException`), navigation fails, or a final URL is produced. -/
inductive ResolverOutcome where
  | driverError
  | navError
  | resolved (finalUrl : String)
deriving DecidableEq

/-- Model of `resolve_redirect_with_selenium`: a `WebDriverException` from
`webdriver.Chrome(...)` is re-raised (`raise e`); a navigation failure is
caught and `None` is returned; otherwise the final URL is returned.  The
`Except` layer is the Python exception channel. -/
def resolve_redirect_with_selenium (r : ResolverOutcome) (url : String) :
    Except Unit (Option String) :=
  match r, url with
  | .driverError, _ => .error ()
  | .navError, _ => .ok none
  | .resolved u, _ => .ok (some u)

/-! ## Playlist enumerator (`__fetch_video_urls`) -/

/-- A flat playlist entry as far as the code reads it: only `entry.get("id")`
matters.  A missing id is `none`. -/
structure FlatEntry where
  id : Option String
deriving DecidableEq

/-- The value stored under the `"entries"` key of the info dict: an iterable
list of entries (each possibly `None`, modelled by the outer `Option`), or a
non-iterable value such as `None`, in which case the list comprehension raises
`TypeError` and the surrounding `except` returns `[]`. -/
inductive EntriesVal where
  | list (es : List (Option FlatEntry))
  | nonIterable
deriving DecidableEq

/-- The info dict returned by the flat `extract_info` call: whether the
`"entries"` key is present (and with what value), and `info.get("id")`. -/
structure InfoDict where
  entries : Option EntriesVal
  id : Option String
deriving DecidableEq

/-- Outcome of the flat `extract_info` call inside `__fetch_video_urls`: it
raises, returns `None` (so that `"entries" in info` raises `TypeError`), or
returns an info dict. -/
inductive ExtractFlat where
  | raises
  | retNone
  | ret (info : InfoDict)
deriving DecidableEq

/-- Python truthiness of an optional string: `None` and `""` are falsy. -/
def pyTruthyStr : Option String → Bool
  | none => false
  | some s => !(s == "")

/-- The f-string of the comprehension: `https://www.youtube.com/watch?v={id}`. -/
def watchUrl (vid : String) : String := "https://www.youtube.com/watch?v=" ++ vid

/-- The comprehension guard `entry and entry.get("id")`: a falsy entry
short-circuits, otherwise the id must be truthy. -/
def entryGuard : Option FlatEntry → Bool
  | none => false
  | some fe => pyTruthyStr fe.id

/-- The subscript `entry["id"]` as evaluated in the f-string; it is only
reached under `entryGuard`, so the default is never observable. -/
def entryIdVal : Option FlatEntry → String
  | none => ""
  | some fe => fe.id.getD ""

/-- Model of `__fetch_video_urls`: on any exception from extraction (including
`info` being `None` or `info["entries"]` being non-iterable) the error is
caught and `[]` is returned; if the `"entries"` key is present the guarded
comprehension builds one watch URL per entry passing the guard; otherwise, if
`info.get("id")` is truthy, the original resolved `url` itself is returned. -/
def fetch_video_urls (o : ExtractFlat) (url : String) : List String :=
  match o with
  | .raises => []
  | .retNone => []
  | .ret info =>
    match info.entries with
    | some (.list es) =>
      (es.filter entryGuard).map (fun e => watchUrl (entryIdVal e))
    | some .nonIterable => []
    | none => if pyTruthyStr info.id then [url] else []

/-- The collection branch in the words of the spec: one constructed watch-URL
per entry that has a non-empty identifier; entries lacking one are skipped, in
input order.  This definition follows the spec text and is compared against
the source-derived `fetch_video_urls` in the claim about the enumerator. -/
def spec_collection_urls (es : List (Option FlatEntry)) : List String :=
  es.filterMap fun e =>
    match e with
    | some fe =>
      match fe.id with
      | some s => if s = "" then none else some (watchUrl s)
      | none => none
    | none => none

/-! ## Accessibility probe and cache (`__check_video_accessible`) -/

/-- Worker-local state: the in-memory accessibility cache, plus a count of
`extract_info` calls issued so far (instrumentation; not part of the Python
state). -/
structure WorkerState where
  cache : List (String × Bool)
  extractCalls : Nat
deriving DecidableEq

/-- Lookup in the association-list model of the cache dict. -/
def cacheLookup : List (String × Bool) → String → Option Bool
  | [], _ => none
  | (k, v) :: rest, u => if k = u then some v else cacheLookup rest u

/-- Model of `__check_video_accessible` from `scripts/check_accesible.py`:
consult the module-level `_video_cache`; on a miss run `extract_info` inside
`try`, mapping a clean extraction to `True` and any exception to `False`, and
record the result in the cache.  `extract` is the oracle for the probing
`extract_info` call (`Except.error` means the call raises).  The `Except`
layer of the result is the Python exception channel of the probe itself: no
branch uses it, since every exception of the extraction call is caught. -/
def check_video_accessible (extract : String → Except String Unit)
    (st : WorkerState) (url : String) :
    Except String ((String × Bool) × WorkerState) :=
  match cacheLookup st.cache url with
  | some b => .ok ((url, b), st)
  | none =>
    match extract url with
    | .ok _ => .ok ((url, true), ⟨(url, true) :: st.cache, st.extractCalls + 1⟩)
    | .error _ => .ok ((url, false), ⟨(url, false) :: st.cache, st.extractCalls + 1⟩)

/-- Model of `__check_video_accessible` from the root-level
`check_accesible.py`: there `video_cache = {}` is created inside the function
body, so the lookup can never hit, and the writes are lost when the call
returns (the worker state's persistent cache is unchanged). -/
def check_video_accessible_root_level (extract : String → Except String Unit)
    (st : WorkerState) (url : String) :
    Except String ((String × Bool) × WorkerState) :=
  match cacheLookup ([] : List (String × Bool)) url with
  | some b => .ok ((url, b), st)
  | none =>
    match extract url with
    | .ok _ => .ok ((url, true), { st with extractCalls := st.extractCalls + 1 })
    | .error _ => .ok ((url, false), { st with extractCalls := st.extractCalls + 1 })

/-- Run a sequence of probes in one worker with the `scripts/` probe,
returning the final worker state. -/
def run_probes (extract : String → Except String Unit) :
    WorkerState → List String → WorkerState
  | st, [] => st
  | st, u :: us =>
    match check_video_accessible extract st u with
    | .ok (_, st') => run_probes extract st' us
    | .error _ => st

/-- Run a sequence of probes in one worker with the root-level probe,
returning the final worker state. -/
def run_probes_root_level (extract : String → Except String Unit) :
    WorkerState → List String → WorkerState
  | st, [] => st
  | st, u :: us =>
    match check_video_accessible_root_level extract st u with
    | .ok (_, st') => run_probes_root_level extract st' us
    | .error _ => st

/-! ## Concurrent dispatcher (`__check_videos_async`) -/

/-- What one submitted future delivers when awaited in the `as_completed`
loop: the probe's `(url, accessible)` pair, or an execution failure of the
task itself (which the loop catches, logs, and drops). -/
inductive TaskOutcome where
  | ok (url : String) (accessible : Bool)
  | execFailure
deriving DecidableEq

/-- Faithfulness constraint tying a submitted future to its URL: the future
submitted for `u` either fails to execute, or yields a pair whose first
component is `u` (the probe returns its argument unchanged). -/
def matchesTask (u : String) : TaskOutcome → Prop
  | .ok u' _ => u' = u
  | .execFailure => True

/-- Body of the `as_completed` loop: on success rewrite the host and append to
the list selected by the boolean; an execution failure is caught and dropped. -/
def dispatchStep : List String × List String → TaskOutcome → List String × List String
  | (acc, inacc), .ok u true => (acc ++ [rewriteHost u], inacc)
  | (acc, inacc), .ok u false => (acc, inacc ++ [rewriteHost u])
  | (acc, inacc), .execFailure => (acc, inacc)

/-- The whole `as_completed` loop over the future results in completion
order. -/
def collectResults (completed : List TaskOutcome) : List String × List String :=
  completed.foldl dispatchStep ([], [])

/-- The successful results routed to the accessible side. -/
def accList : List TaskOutcome → List String :=
  List.filterMap fun o =>
    match o with
    | .ok u true => some (rewriteHost u)
    | _ => none

/-- The successful results routed to the inaccessible side. -/
def inaccList : List TaskOutcome → List String :=
  List.filterMap fun o =>
    match o with
    | .ok u false => some (rewriteHost u)
    | _ => none

/-- Whether a task outcome contributes the output string `t` to either list. -/
def hitsTarget (t : String) : TaskOutcome → Bool
  | .ok v _ => rewriteHost v == t
  | .execFailure => false

/-- Model of `cpu_count = os.cpu_count() or 1` followed by
`max_workers = min(61, cpu_count * 8)`.  `none` models an undeterminable CPU
count (`os.cpu_count()` returning `None`, which is falsy, as is `0`). -/
def max_workers (cpu : Option Nat) : Nat :=
  match cpu with
  | none => min 61 (1 * 8)
  | some k => if k = 0 then min 61 (1 * 8) else min 61 (k * 8)

/-- Instrumentation of one run: number of flat-extraction (enumeration) calls
made, whether a worker pool was created and with how many workers, and how
many probe futures were submitted. -/
structure Trace where
  fetchCalls : Nat
  poolCreated : Bool
  workers : Nat
  tasksDispatched : Nat
deriving DecidableEq

/-- Model of `__check_videos_async`: enumerate, short-circuit on an empty
enumeration, otherwise create the pool, submit one future per URL, and fold
the `as_completed` loop over the future results.  `completed` is the sequence
of future results in completion order; theorems tie it to the enumerated URLs
by hypotheses (each future yields its own URL with a boolean or an execution
failure, and completion order is a permutation of submission order). -/
def check_videos_async (fetch : ExtractFlat) (cpu : Option Nat)
    (completed : List TaskOutcome) (url : String) :
    (List String × List String) × Trace :=
  let video_urls := fetch_video_urls fetch url
  if video_urls.isEmpty then
    (([], []), ⟨1, false, 0, 0⟩)
  else
    (collectResults completed, ⟨1, true, max_workers cpu, video_urls.length⟩)

/-! ## Pipeline orchestrator (`check_videos`, `scripts/` version) -/

/-- Model of `check_videos` from `scripts/check_accesible.py`: resolve the
entry URL first; `if resolved_url:` treats both `None` and `""` as failure and
yields `([], [])` without enumerating or probing; a `WebDriverException`
re-raised by the resolver propagates to the caller (the `Except` layer). -/
def check_videos (r : ResolverOutcome) (fetch : ExtractFlat) (cpu : Option Nat)
    (completed : List TaskOutcome) (url : String) :
    Except Unit ((List String × List String) × Trace) :=
  match resolve_redirect_with_selenium r url with
  | .error e => .error e
  | .ok none => .ok (([], []), ⟨0, false, 0, 0⟩)
  | .ok (some ru) =>
    if ru = "" then .ok (([], []), ⟨0, false, 0, 0⟩)
    else .ok (check_videos_async fetch cpu completed ru)

/-! ## Helper lemmas about the dispatcher fold -/

theorem foldl_dispatchStep (completed : List TaskOutcome) :
    ∀ acc inacc : List String,
      completed.foldl dispatchStep (acc, inacc)
        = (acc ++ accList completed, inacc ++ inaccList completed) := by
  induction completed with
  | nil => intro acc inacc; simp [accList, inaccList]
  | cons o rest ih =>
    intro acc inacc
    cases o with
    | ok u b =>
      cases b <;>
        simp [dispatchStep, accList, inaccList, List.filterMap_cons, ih, List.append_assoc]
    | execFailure =>
      simp [dispatchStep, accList, inaccList, List.filterMap_cons, ih]

theorem collectResults_eq (completed : List TaskOutcome) :
    collectResults completed = (accList completed, inaccList completed) := by
  simpa [collectResults] using foldl_dispatchStep completed [] []

theorem accList_inaccList_length_le (rs : List TaskOutcome) :
    (accList rs).length + (inaccList rs).length ≤ rs.length := by
  induction rs with
  | nil => simp [accList, inaccList]
  | cons o rest ih =>
    cases o with
    | ok u b =>
      cases b <;> simp [accList, inaccList, List.filterMap_cons] at * <;> omega
    | execFailure =>
      simp [accList, inaccList, List.filterMap_cons] at *
      omega

theorem mem_accList {x : String} {rs : List TaskOutcome} (hx : x ∈ accList rs) :
    ∃ u b, TaskOutcome.ok u b ∈ rs ∧ x = rewriteHost u := by
  rcases List.mem_filterMap.mp hx with ⟨o, ho, he⟩
  cases o with
  | ok u b =>
    cases b with
    | true => exact ⟨u, true, ho, by simpa using he.symm⟩
    | false => simp at he
  | execFailure => simp at he

theorem mem_inaccList {x : String} {rs : List TaskOutcome} (hx : x ∈ inaccList rs) :
    ∃ u b, TaskOutcome.ok u b ∈ rs ∧ x = rewriteHost u := by
  rcases List.mem_filterMap.mp hx with ⟨o, ho, he⟩
  cases o with
  | ok u b =>
    cases b with
    | true => simp at he
    | false => exact ⟨u, false, ho, by simpa using he.symm⟩
  | execFailure => simp at he

theorem mem_urls_of_ok {urls : List String} {outs : List TaskOutcome}
    (h : List.Forall₂ matchesTask urls outs) :
    ∀ {u : String} {b : Bool}, TaskOutcome.ok u b ∈ outs → u ∈ urls := by
  induction h with
  | nil => intro u b hu; simp at hu
  | @cons v o urls' outs' hm _ ih =>
    intro u b hu
    rcases List.mem_cons.mp hu with h1 | h2
    · cases o with
      | ok u' b' =>
        have : u' = v := hm
        cases h1
        exact List.mem_cons.mpr (Or.inl this)
      | execFailure => cases h1
    · exact List.mem_cons.mpr (Or.inr (ih h2))

theorem accList_cons_ok_true (u : String) (rs : List TaskOutcome) :
    accList (.ok u true :: rs) = rewriteHost u :: accList rs := rfl

theorem accList_cons_ok_false (u : String) (rs : List TaskOutcome) :
    accList (.ok u false :: rs) = accList rs := rfl

theorem accList_cons_exec (rs : List TaskOutcome) :
    accList (.execFailure :: rs) = accList rs := rfl

theorem inaccList_cons_ok_true (u : String) (rs : List TaskOutcome) :
    inaccList (.ok u true :: rs) = inaccList rs := rfl

theorem inaccList_cons_ok_false (u : String) (rs : List TaskOutcome) :
    inaccList (.ok u false :: rs) = rewriteHost u :: inaccList rs := rfl

theorem inaccList_cons_exec (rs : List TaskOutcome) :
    inaccList (.execFailure :: rs) = inaccList rs := rfl

theorem count_accList_add_inaccList (t : String) (rs : List TaskOutcome) :
    (accList rs).count t + (inaccList rs).count t = rs.countP (hitsTarget t) := by
  induction rs with
  | nil => simp [accList, inaccList]
  | cons o rest ih =>
    cases o with
    | ok u b =>
      have he : hitsTarget t (.ok u b) = (rewriteHost u == t) := rfl
      by_cases hu : (rewriteHost u == t) = true <;>
        cases b <;>
        simp [accList_cons_ok_true, accList_cons_ok_false, inaccList_cons_ok_true,
          inaccList_cons_ok_false, List.count_cons, List.countP_cons, he, hu] <;>
        omega
    | execFailure =>
      have he : (if hitsTarget t .execFailure = true then 1 else 0) = 0 := rfl
      simp only [accList_cons_exec, inaccList_cons_exec, List.countP_cons, he,
        Nat.add_zero, ih]

theorem countP_hits_le {urls : List String} {outs : List TaskOutcome}
    (h : List.Forall₂ matchesTask urls outs) (t : String) :
    outs.countP (hitsTarget t) ≤ urls.countP (fun v => rewriteHost v == t) := by
  induction h with
  | nil => simp
  | @cons v o urls' outs' hm _ ih =>
    cases o with
    | ok u b =>
      have hv : u = v := hm
      subst hv
      have he : hitsTarget t (.ok u b) = (rewriteHost u == t) := rfl
      simp only [List.countP_cons, he]
      exact Nat.add_le_add ih (Nat.le_refl _)
    | execFailure =>
      have he : (if hitsTarget t .execFailure = true then 1 else 0) = 0 := rfl
      simp only [List.countP_cons, he, Nat.add_zero]
      exact Nat.le_trans ih (Nat.le_add_right _ _)

theorem countP_eq_of_mem_eq {α : Type} (p q : α → Bool) :
    ∀ l : List α, (∀ a ∈ l, p a = q a) → l.countP p = l.countP q := by
  intro l
  induction l with
  | nil => simp
  | cons a rest ih =>
    intro h
    have ha := h a (List.mem_cons_self a rest)
    simp [List.countP_cons, ha, ih fun b hb => h b (List.mem_cons_of_mem a hb)]

/-! ## Claim theorems: orchestrator and enumerator -/

/-- C2: if the redirect resolver fails to produce a final URL (a caught
navigation error, returning `None`), `check_videos` returns `([], [])` with no
enumeration call made, no worker pool created, and no probe task dispatched. -/
theorem c2_resolver_failure_empty (fetch : ExtractFlat) (cpu : Option Nat)
    (completed : List TaskOutcome) (url : String) :
    check_videos .navError fetch cpu completed url
      = .ok (([], []), ⟨0, false, 0, 0⟩) := rfl

/-- C3 counterexample: the claim that `check_videos` never propagates an
exception to its caller is false: when driver creation fails,
`resolve_redirect_with_selenium` re-raises the `WebDriverException`
(`raise e`, `scripts/check_accesible.py` line 47) and `check_videos` does not
catch it, so the run ends in a propagated exception. -/
theorem c3_counterexample :
    check_videos .driverError .raises none [] "https://youtu.be/x" = .error () := rfl

/-- C3 amended: provided driver creation succeeds (the resolver outcome is not
the re-raised `WebDriverException`), `check_videos` always completes and
returns a pair of lists; navigation failures, enumeration failures and probe
failures are all absorbed into empty or partial results. -/
theorem c3_amended_no_raise (r : ResolverOutcome) (fetch : ExtractFlat)
    (cpu : Option Nat) (completed : List TaskOutcome) (url : String)
    (h : r ≠ .driverError) :
    ∃ out, check_videos r fetch cpu completed url = .ok out := by
  cases r with
  | driverError => exact absurd rfl h
  | navError => exact ⟨_, rfl⟩
  | resolved ru =>
    by_cases hru : ru = ""
    · exact ⟨(([], []), ⟨0, false, 0, 0⟩),
        by simp [check_videos, resolve_redirect_with_selenium, hru]⟩
    · exact ⟨check_videos_async fetch cpu completed ru,
        by simp [check_videos, resolve_redirect_with_selenium, hru]⟩

/-- C3 amended, witness: a navigation failure run completes with a result. -/
theorem c3_amended_witness :
    (ResolverOutcome.navError ≠ ResolverOutcome.driverError) ∧
      ∃ out, check_videos .navError .raises none [] "u" = .ok out :=
  ⟨by decide, c3_amended_no_raise .navError .raises none [] "u" (by decide)⟩

/-- C4: the probe returns `(url, false)` whenever the metadata-extraction call
raises, `(url, true)` whenever it completes cleanly (both on a cache miss,
which is exactly when the extraction call is issued), and the probe itself
never raises: every branch returns an `Except.ok` value. -/
theorem c4_probe_exception_to_bool (extract : String → Except String Unit)
    (st : WorkerState) (url : String) :
    (∃ v, check_video_accessible extract st url = .ok v) ∧
    (cacheLookup st.cache url = none → ∀ e, extract url = .error e →
      ∃ st', check_video_accessible extract st url = .ok ((url, false), st')) ∧
    (cacheLookup st.cache url = none → extract url = .ok () →
      ∃ st', check_video_accessible extract st url = .ok ((url, true), st')) := by
  refine ⟨?_, ?_, ?_⟩
  · unfold check_video_accessible
    cases hc : cacheLookup st.cache url with
    | some b => exact ⟨_, rfl⟩
    | none =>
      cases hx : extract url with
      | ok v => exact ⟨_, rfl⟩
      | error e => exact ⟨_, rfl⟩
  · intro hc e hx
    unfold check_video_accessible
    rw [hc, hx]
    exact ⟨_, rfl⟩
  · intro hc hx
    unfold check_video_accessible
    rw [hc, hx]
    exact ⟨_, rfl⟩

/-- C4 witness: with an empty cache, a raising extraction yields
`(url, false)` and a clean extraction yields `(url, true)`. -/
theorem c4_witness :
    (∃ st', check_video_accessible (fun _ => .error "geo-blocked") ⟨[], 0⟩
        "https://www.youtube.com/watch?v=a"
        = .ok (("https://www.youtube.com/watch?v=a", false), st')) ∧
    (∃ st', check_video_accessible (fun _ => .ok ()) ⟨[], 0⟩
        "https://www.youtube.com/watch?v=a"
        = .ok (("https://www.youtube.com/watch?v=a", true), st')) :=
  ⟨(c4_probe_exception_to_bool (fun _ => .error "geo-blocked") ⟨[], 0⟩
      "https://www.youtube.com/watch?v=a").2.1 rfl "geo-blocked" rfl,
    (c4_probe_exception_to_bool (fun _ => .ok ()) ⟨[], 0⟩
      "https://www.youtube.com/watch?v=a").2.2 rfl rfl⟩

/-- C5: evaluation at the failing input.  Probing the same URL twice in the
same worker issues one extraction call under the `scripts/check_accesible.py`
probe (module-level `_video_cache`: the second probe is a cache hit), but two
extraction calls under the root-level `check_accesible.py` probe, whose
`video_cache = {}` is created afresh inside every call and therefore never
hits — contradicting that function's own docstring ("using cache") and the
spec's write-once-per-key cache. -/
theorem c5_root_level_cache_never_hits :
    (run_probes (fun _ => .ok ()) ⟨[], 0⟩
        ["https://www.youtube.com/watch?v=a",
         "https://www.youtube.com/watch?v=a"]).extractCalls = 1 ∧
    (run_probes_root_level (fun _ => .ok ()) ⟨[], 0⟩
        ["https://www.youtube.com/watch?v=a",
         "https://www.youtube.com/watch?v=a"]).extractCalls = 2 := by
  exact ⟨rfl, rfl⟩

/-- C6: the enumerator outputs exactly one constructed watch-URL per entry
having a non-empty identifier when the resolved entity is a collection
(entries lacking an identifier are skipped without error, in input order,
matching the spec-side description `spec_collection_urls`); the one-element
sequence holding the original resolved URL when it is a single item with a
truthy id; and the empty sequence on any extraction failure, with no exception
raised further. -/
theorem c6_enumerator_cases (url : String) :
    (∀ es oid, fetch_video_urls (.ret ⟨some (.list es), oid⟩) url
        = spec_collection_urls es) ∧
    (∀ s, s ≠ "" → fetch_video_urls (.ret ⟨none, some s⟩) url = [url]) ∧
    (fetch_video_urls .raises url = [] ∧ fetch_video_urls .retNone url = [] ∧
      ∀ oid, fetch_video_urls (.ret ⟨some .nonIterable, oid⟩) url = []) := by
  refine ⟨?_, ?_, rfl, rfl, fun _ => rfl⟩
  · intro es oid
    show (es.filter entryGuard).map (fun e => watchUrl (entryIdVal e))
        = spec_collection_urls es
    induction es with
    | nil => rfl
    | cons e rest ih =>
      cases e with
      | none =>
        simp [spec_collection_urls, List.filterMap_cons, List.filter_cons, entryGuard] at *
        exact ih
      | some fe =>
        obtain ⟨oid'⟩ := fe
        cases oid' with
        | none =>
          simp [spec_collection_urls, List.filterMap_cons, List.filter_cons,
            entryGuard, pyTruthyStr] at *
          exact ih
        | some s =>
          by_cases hs : s = ""
          · subst hs
            simp [spec_collection_urls, List.filterMap_cons, List.filter_cons,
              entryGuard, pyTruthyStr] at *
            exact ih
          · simp [spec_collection_urls, List.filterMap_cons, List.filter_cons,
              entryGuard, pyTruthyStr, entryIdVal, hs] at *
            exact ih
  · intro s hs
    simp [fetch_video_urls, pyTruthyStr, hs]

/-- C6 witness: a mixed collection (valid id, missing entry, missing id, empty
id) and a single-item case, evaluated concretely. -/
theorem c6_witness :
    (fetch_video_urls
        (.ret ⟨some (.list [some ⟨some "abcdefghijk"⟩, none, some ⟨none⟩, some ⟨some ""⟩]),
          none⟩) "https://music.youtube.com/playlist?list=L"
      = spec_collection_urls [some ⟨some "abcdefghijk"⟩, none, some ⟨none⟩, some ⟨some ""⟩]) ∧
    (fetch_video_urls (.ret ⟨none, some "abcdefghijk"⟩)
        "https://music.youtube.com/watch?v=abcdefghijk"
      = ["https://music.youtube.com/watch?v=abcdefghijk"]) :=
  ⟨(c6_enumerator_cases "https://music.youtube.com/playlist?list=L").1 _ _,
    (c6_enumerator_cases "https://music.youtube.com/watch?v=abcdefghijk").2.1
      "abcdefghijk" (by decide)⟩

/-- C7: when enumeration yields zero URLs, `check_videos` returns `([], [])`
immediately: the trace shows one enumeration call, no worker pool created, and
zero probe tasks dispatched. -/
theorem c7_empty_enumeration_short_circuit (fetch : ExtractFlat) (cpu : Option Nat)
    (completed : List TaskOutcome) (url ru : String)
    (hru : ru ≠ "") (hempty : fetch_video_urls fetch ru = []) :
    check_videos (.resolved ru) fetch cpu completed url
      = .ok (([], []), ⟨1, false, 0, 0⟩) := by
  simp [check_videos, resolve_redirect_with_selenium, hru, check_videos_async, hempty]

/-- C7 witness: a raising flat extraction enumerates zero URLs and the run
returns two empty lists without creating a pool. -/
theorem c7_witness :
    ("https://music.youtube.com/playlist?list=L" ≠ "") ∧
    fetch_video_urls .raises "https://music.youtube.com/playlist?list=L" = [] ∧
    check_videos (.resolved "https://music.youtube.com/playlist?list=L") .raises none []
        "https://tinyurl.com/p" = .ok (([], []), ⟨1, false, 0, 0⟩) :=
  ⟨by decide, rfl,
    c7_empty_enumeration_short_circuit .raises none [] "https://tinyurl.com/p"
      "https://music.youtube.com/playlist?list=L" (by decide) rfl⟩

/-- C9: in every run that dispatches probes, the worker pool size equals
`min(61, cpu_count * 8)`, and when the CPU count cannot be determined
(`os.cpu_count()` returns `None`) the count falls back to `1`, giving
`min(61, 1 * 8) = 8` workers — in particular at least the floor of 1 worker. -/
theorem c9_worker_pool_size (fetch : ExtractFlat) (ru : String)
    (completed : List TaskOutcome)
    (hne : fetch_video_urls fetch ru ≠ []) :
    (∀ k, 0 < k →
      (check_videos_async fetch (some k) completed ru).2.workers = min 61 (k * 8)) ∧
    ((check_videos_async fetch none completed ru).2.workers = min 61 (1 * 8) ∧
      1 ≤ (check_videos_async fetch none completed ru).2.workers) := by
  have hie : (fetch_video_urls fetch ru).isEmpty = false := by
    cases h : fetch_video_urls fetch ru with
    | nil => exact absurd h hne
    | cons a l => rfl
  refine ⟨fun k hk => ?_, ?_, ?_⟩
  · have hk0 : k ≠ 0 := Nat.pos_iff_ne_zero.mp hk
    simp [check_videos_async, hie, max_workers, hk0]
  · simp [check_videos_async, hie, max_workers]
  · simp [check_videos_async, hie, max_workers]

/-- C9 witness: a one-video enumeration dispatches with `min 61 32 = 32`
workers for 4 CPUs, and 8 workers when the CPU count is unknown. -/
theorem c9_witness :
    (fetch_video_urls (.ret ⟨none, some "abcdefghijk"⟩) "https://r" ≠ []) ∧
    (check_videos_async (.ret ⟨none, some "abcdefghijk"⟩) (some 4) [] "https://r").2.workers
      = min 61 (4 * 8) ∧
    (check_videos_async (.ret ⟨none, some "abcdefghijk"⟩) none [] "https://r").2.workers
      = min 61 (1 * 8) :=
  ⟨by decide,
    (c9_worker_pool_size (.ret ⟨none, some "abcdefghijk"⟩) "https://r" [] (by decide)).1
      4 (by decide),
    (c9_worker_pool_size (.ret ⟨none, some "abcdefghijk"⟩) "https://r" [] (by decide)).2.1⟩

/-- C1 counterexample: host rewriting is not injective on enumerated URLs, so
a URL appearing exactly once in enumeration can land in BOTH output lists.
With playlist entry ids `"www.youtube"` and `"music.youtube"` (arbitrary
strings as far as the code is concerned), both constructed watch URLs rewrite
to the same output string; the first probes accessible and the second does
not, so the rewritten form of the first URL — which appears exactly once in
the enumerated sequence, and whose probe task did not fail — appears in the
accessible AND the inaccessible list, refuting "never in both". -/
theorem c1_counterexample :
    (fetch_video_urls
        (.ret ⟨some (.list [some ⟨some "www.youtube"⟩, some ⟨some "music.youtube"⟩]), none⟩)
        "https://music.youtube.com/playlist?list=L").count
        "https://www.youtube.com/watch?v=www.youtube" = 1 ∧
    TaskOutcome.execFailure ∉
      ([.ok "https://www.youtube.com/watch?v=www.youtube" true,
        .ok "https://www.youtube.com/watch?v=music.youtube" false] : List TaskOutcome) ∧
    check_videos (.resolved "https://music.youtube.com/playlist?list=L")
        (.ret ⟨some (.list [some ⟨some "www.youtube"⟩, some ⟨some "music.youtube"⟩]), none⟩)
        none
        [.ok "https://www.youtube.com/watch?v=www.youtube" true,
         .ok "https://www.youtube.com/watch?v=music.youtube" false]
        "https://tinyurl.com/p"
      = .ok ((["https://music.youtube.com/watch?v=music.youtube"],
              ["https://music.youtube.com/watch?v=music.youtube"]), ⟨1, true, 8, 2⟩) ∧
    rewriteHost "https://www.youtube.com/watch?v=www.youtube"
      ∈ ["https://music.youtube.com/watch?v=music.youtube"] ∧
    rewriteHost "https://www.youtube.com/watch?v=www.youtube"
      ∈ ["https://music.youtube.com/watch?v=music.youtube"] :=
  ⟨by decide, by decide, rfl, by decide, by decide⟩

/-- C1 amended: for every run of `check_videos` and every URL `u` appearing
exactly once in the enumerated sequence whose host-rewritten form differs
from that of every other enumerated URL, the host-rewritten form of `u`
appears in exactly one of the two returned lists — never in both and never in
neither — provided `u`'s probe task did not suffer an execution failure. -/
theorem c1_amended_unique_partition (fetch : ExtractFlat) (ru url u : String)
    (cpu : Option Nat) (outs completed : List TaskOutcome) (b : Bool)
    (hru : ru ≠ "")
    (hmatch : List.Forall₂ matchesTask (fetch_video_urls fetch ru) outs)
    (hperm : completed.Perm outs)
    (hcount : (fetch_video_urls fetch ru).count u = 1)
    (huniq : ∀ v ∈ fetch_video_urls fetch ru, rewriteHost v = rewriteHost u → v = u)
    (hok : TaskOutcome.ok u b ∈ outs) :
    ∃ acc inacc tr,
      check_videos (.resolved ru) fetch cpu completed url = .ok ((acc, inacc), tr) ∧
      acc.count (rewriteHost u) + inacc.count (rewriteHost u) = 1 ∧
      ((rewriteHost u ∈ acc ∧ rewriteHost u ∉ inacc) ∨
        (rewriteHost u ∉ acc ∧ rewriteHost u ∈ inacc)) := by
  have hmem : u ∈ fetch_video_urls fetch ru := by
    refine List.count_pos_iff.mp ?_
    omega
  have hne : (fetch_video_urls fetch ru).isEmpty = false := by
    cases h : fetch_video_urls fetch ru with
    | nil => rw [h] at hmem; cases hmem
    | cons a l => rfl
  have hrun : check_videos (.resolved ru) fetch cpu completed url
      = .ok ((accList completed, inaccList completed),
          ⟨1, true, max_workers cpu, (fetch_video_urls fetch ru).length⟩) := by
    simp [check_videos, resolve_redirect_with_selenium, hru, check_videos_async, hne,
      collectResults_eq]
  have key : (accList completed).count (rewriteHost u)
      + (inaccList completed).count (rewriteHost u) = 1 := by
    rw [count_accList_add_inaccList, hperm.countP_eq]
    have hle : outs.countP (hitsTarget (rewriteHost u))
        ≤ (fetch_video_urls fetch ru).countP (fun v => rewriteHost v == rewriteHost u) :=
      countP_hits_le hmatch _
    have heq : (fetch_video_urls fetch ru).countP (fun v => rewriteHost v == rewriteHost u)
        = (fetch_video_urls fetch ru).countP (fun v => v == u) := by
      apply countP_eq_of_mem_eq
      intro a ha
      by_cases hau : a = u
      · subst hau; simp
      · have h1 : (a == u) = false := by simp [hau]
        have h2 : (rewriteHost a == rewriteHost u) = false := by
          by_cases hra : rewriteHost a = rewriteHost u
          · exact absurd (huniq a ha hra) hau
          · simp [hra]
        rw [h1, h2]
    have hcnt : (fetch_video_urls fetch ru).countP (fun v => v == u) = 1 := by
      rw [← List.count_eq_countP]
      exact hcount
    have hge : 0 < outs.countP (hitsTarget (rewriteHost u)) := by
      refine List.countP_pos_iff.mpr ⟨.ok u b, hok, ?_⟩
      simp [hitsTarget]
    omega
  refine ⟨accList completed, inaccList completed, _, hrun, key, ?_⟩
  by_cases hacc : rewriteHost u ∈ accList completed
  · left
    refine ⟨hacc, fun hin => ?_⟩
    have h1 : 0 < (accList completed).count (rewriteHost u) := List.count_pos_iff.mpr hacc
    have h2 : 0 < (inaccList completed).count (rewriteHost u) := List.count_pos_iff.mpr hin
    omega
  · right
    refine ⟨hacc, ?_⟩
    have h1 : (accList completed).count (rewriteHost u) = 0 := by
      rw [List.count_eq_zero]; exact hacc
    have h2 : 0 < (inaccList completed).count (rewriteHost u) := by omega
    exact List.count_pos_iff.mp h2

/-- C1 amended, witness: a one-entry playlist whose video probes accessible;
its rewritten URL lands exactly once in the accessible list. -/
theorem c1_amended_witness :
    ∃ acc inacc tr,
      check_videos (.resolved "https://music.youtube.com/playlist?list=L")
          (.ret ⟨some (.list [some ⟨some "abcdefghijk"⟩]), none⟩) none
          [.ok "https://www.youtube.com/watch?v=abcdefghijk" true]
          "https://tinyurl.com/p"
        = .ok ((acc, inacc), tr) ∧
      acc.count (rewriteHost "https://www.youtube.com/watch?v=abcdefghijk")
        + inacc.count (rewriteHost "https://www.youtube.com/watch?v=abcdefghijk") = 1 ∧
      ((rewriteHost "https://www.youtube.com/watch?v=abcdefghijk" ∈ acc ∧
          rewriteHost "https://www.youtube.com/watch?v=abcdefghijk" ∉ inacc) ∨
        (rewriteHost "https://www.youtube.com/watch?v=abcdefghijk" ∉ acc ∧
          rewriteHost "https://www.youtube.com/watch?v=abcdefghijk" ∈ inacc)) :=
  c1_amended_unique_partition
    (.ret ⟨some (.list [some ⟨some "abcdefghijk"⟩]), none⟩)
    "https://music.youtube.com/playlist?list=L" "https://tinyurl.com/p"
    "https://www.youtube.com/watch?v=abcdefghijk" none
    [.ok "https://www.youtube.com/watch?v=abcdefghijk" true]
    [.ok "https://www.youtube.com/watch?v=abcdefghijk" true] true
    (by decide)
    (List.Forall₂.cons rfl List.Forall₂.nil)
    (List.Perm.refl _)
    (by decide)
    (by decide)
    (by decide)

/-- Every string in either output list of the dispatcher is the host-rewrite
of some enumerated URL (shared helper for the output-provenance claims). -/
theorem outputs_are_rewrites (fetch : ExtractFlat) (ru : String)
    (cpu : Option Nat) (outs completed : List TaskOutcome)
    (hmatch : List.Forall₂ matchesTask (fetch_video_urls fetch ru) outs)
    (hperm : completed.Perm outs) :
    ∀ x, (x ∈ (check_videos_async fetch cpu completed ru).1.1 ∨
          x ∈ (check_videos_async fetch cpu completed ru).1.2) →
      ∃ v ∈ fetch_video_urls fetch ru, x = rewriteHost v := by
  intro x hx
  cases hie : (fetch_video_urls fetch ru).isEmpty with
  | true => simp [check_videos_async, hie] at hx
  | false =>
    simp only [check_videos_async, hie, Bool.false_eq_true, if_false,
      collectResults_eq] at hx
    rcases hx with hx | hx
    · rcases mem_accList hx with ⟨v, b, hv, hxv⟩
      exact ⟨v, mem_urls_of_ok hmatch (hperm.mem_iff.mp hv), hxv⟩
    · rcases mem_inaccList hx with ⟨v, b, hv, hxv⟩
      exact ⟨v, mem_urls_of_ok hmatch (hperm.mem_iff.mp hv), hxv⟩

/-- C10: the probe always returns its input URL unchanged as the first
component of its result pair; every string in either output list of the
dispatcher is the host-rewrite of some URL in the enumerated sequence; and the
combined length of the two output lists never exceeds the number of enumerated
URLs. -/
theorem c10_outputs_from_enumeration (fetch : ExtractFlat) (ru : String)
    (cpu : Option Nat) (outs completed : List TaskOutcome)
    (hmatch : List.Forall₂ matchesTask (fetch_video_urls fetch ru) outs)
    (hperm : completed.Perm outs) :
    (∀ (extract : String → Except String Unit) (st : WorkerState) (u : String),
      ∃ b st', check_video_accessible extract st u = .ok ((u, b), st')) ∧
    (∀ x, (x ∈ (check_videos_async fetch cpu completed ru).1.1 ∨
           x ∈ (check_videos_async fetch cpu completed ru).1.2) →
      ∃ v ∈ fetch_video_urls fetch ru, x = rewriteHost v) ∧
    ((check_videos_async fetch cpu completed ru).1.1.length
        + (check_videos_async fetch cpu completed ru).1.2.length
      ≤ (fetch_video_urls fetch ru).length) := by
  have hlen : (fetch_video_urls fetch ru).length = outs.length := hmatch.length_eq
  refine ⟨?_, ?_, ?_⟩
  · intro extract st u
    unfold check_video_accessible
    cases hc : cacheLookup st.cache u with
    | some b => exact ⟨b, st, rfl⟩
    | none =>
      cases hx : extract u with
      | ok v => exact ⟨true, _, rfl⟩
      | error e => exact ⟨false, _, rfl⟩
  · exact outputs_are_rewrites fetch ru cpu outs completed hmatch hperm
  · cases hie : (fetch_video_urls fetch ru).isEmpty with
    | true => simp [check_videos_async, hie]
    | false =>
      simp only [check_videos_async, hie, Bool.false_eq_true, if_false,
        collectResults_eq]
      calc (accList completed).length + (inaccList completed).length
          ≤ completed.length := accList_inaccList_length_le completed
        _ = outs.length := hperm.length_eq
        _ = (fetch_video_urls fetch ru).length := hlen.symm

/-- C10 witness: a two-entry playlist with one execution failure; the single
emitted output is the rewrite of an enumerated URL and the combined output
length is below the enumeration length. -/
theorem c10_witness :
    (∀ (extract : String → Except String Unit) (st : WorkerState) (u : String),
      ∃ b st', check_video_accessible extract st u = .ok ((u, b), st')) ∧
    (∀ x, (x ∈ (check_videos_async
            (.ret ⟨some (.list [some ⟨some "abcdefghijk"⟩, some ⟨some "qrstuvwxyz0"⟩]), none⟩)
            none [.execFailure, .ok "https://www.youtube.com/watch?v=abcdefghijk" true]
            "https://music.youtube.com/playlist?list=L").1.1 ∨
           x ∈ (check_videos_async
            (.ret ⟨some (.list [some ⟨some "abcdefghijk"⟩, some ⟨some "qrstuvwxyz0"⟩]), none⟩)
            none [.execFailure, .ok "https://www.youtube.com/watch?v=abcdefghijk" true]
            "https://music.youtube.com/playlist?list=L").1.2) →
      ∃ v ∈ fetch_video_urls
          (.ret ⟨some (.list [some ⟨some "abcdefghijk"⟩, some ⟨some "qrstuvwxyz0"⟩]), none⟩)
          "https://music.youtube.com/playlist?list=L", x = rewriteHost v) ∧
    ((check_videos_async
        (.ret ⟨some (.list [some ⟨some "abcdefghijk"⟩, some ⟨some "qrstuvwxyz0"⟩]), none⟩)
        none [.execFailure, .ok "https://www.youtube.com/watch?v=abcdefghijk" true]
        "https://music.youtube.com/playlist?list=L").1.1.length
      + (check_videos_async
        (.ret ⟨some (.list [some ⟨some "abcdefghijk"⟩, some ⟨some "qrstuvwxyz0"⟩]), none⟩)
        none [.execFailure, .ok "https://www.youtube.com/watch?v=abcdefghijk" true]
        "https://music.youtube.com/playlist?list=L").1.2.length
      ≤ (fetch_video_urls
          (.ret ⟨some (.list [some ⟨some "abcdefghijk"⟩, some ⟨some "qrstuvwxyz0"⟩]), none⟩)
          "https://music.youtube.com/playlist?list=L").length) :=
  c10_outputs_from_enumeration
    (.ret ⟨some (.list [some ⟨some "abcdefghijk"⟩, some ⟨some "qrstuvwxyz0"⟩]), none⟩)
    "https://music.youtube.com/playlist?list=L" none
    [.ok "https://www.youtube.com/watch?v=abcdefghijk" true, .execFailure]
    [.execFailure, .ok "https://www.youtube.com/watch?v=abcdefghijk" true]
    (List.Forall₂.cons rfl (List.Forall₂.cons trivial List.Forall₂.nil))
    (List.Perm.swap _ _ _)

/-! ## String lemmas for the host-rewrite claim -/

theorem isPrefixOf_self_append (l t : List Char) : l.isPrefixOf (l ++ t) = true := by
  induction l with
  | nil => cases t <;> rfl
  | cons a as ih => simp [List.isPrefixOf, ih]

theorem clash_isPrefixOf_eq_false (old : List Char) :
    ∀ (q t : List Char), clash old q = true → old.isPrefixOf (q ++ t) = false := by
  induction old with
  | nil =>
    intro q t h
    simp [clash, List.isPrefixOf] at h
  | cons a as ih =>
    intro q t h
    cases q with
    | nil => simp [clash, List.isPrefixOf] at h
    | cons b bs =>
      by_cases hab : (a == b) = true
      · have hab' : a = b := by simpa using hab
        subst hab'
        have h' : clash as bs = true := by
          simpa [clash, List.isPrefixOf] using h
        have hres := ih bs t h'
        simp [List.isPrefixOf, hres]
      · have hab' : (a == b) = false := by
          simpa using hab
        simp [List.isPrefixOf, hab']

theorem replaceAllFuel_of_not_contains (old new : List Char) :
    ∀ (fuel : Nat) (s : List Char), containsSub old s = false →
      replaceAllFuel old new fuel s = s := by
  intro fuel
  induction fuel with
  | zero => intro s h; cases s <;> rfl
  | succ f ih =>
    intro s h
    cases s with
    | nil => rfl
    | cons c rest =>
      simp only [containsSub, Bool.or_eq_false_iff] at h
      simp [replaceAllFuel, h.1, ih rest h.2]

theorem replaceAllFuel_peel (old new : List Char) :
    ∀ (p t : List Char) (fuel F : Nat), F = fuel + p.length →
      p.tails.all (fun q => q.isEmpty || clash old q) = true →
      replaceAllFuel old new F (p ++ t) = p ++ replaceAllFuel old new fuel t := by
  intro p
  induction p with
  | nil =>
    intro t fuel F hF h
    subst hF
    simp
  | cons c p' ih =>
    intro t fuel F hF h
    subst hF
    have hcl : clash old (c :: p') = true := by
      have hmem := (List.all_eq_true.mp h) (c :: p') (by simp [List.tails_cons])
      simpa using hmem
    have hrest : p'.tails.all (fun q => q.isEmpty || clash old q) = true := by
      refine List.all_eq_true.mpr ?_
      intro q hq
      refine (List.all_eq_true.mp h) q ?_
      rw [List.tails_cons]
      exact List.mem_cons_of_mem _ hq
    have hpf : old.isPrefixOf (c :: (p' ++ t)) = false := by
      have hc := clash_isPrefixOf_eq_false old (c :: p') t hcl
      simpa using hc
    have hstep : replaceAllFuel old new (fuel + (c :: p').length) ((c :: p') ++ t)
        = c :: replaceAllFuel old new (fuel + p'.length) (p' ++ t) := by
      simp only [List.length_cons, List.cons_append]
      rw [show fuel + (p'.length + 1) = (fuel + p'.length) + 1 from rfl]
      simp [replaceAllFuel, hpf]
    rw [hstep, ih t fuel (fuel + p'.length) rfl hrest]
    rfl

theorem replaceAllFuel_hit (new rest : List Char) (fuel F : Nat) (hF : F = fuel + 1) :
    replaceAllFuel hostPattern new F (hostPattern ++ rest)
      = new ++ replaceAllFuel hostPattern new fuel rest := by
  subst hF
  have hpre : hostPattern.isPrefixOf (hostPattern ++ rest) = true :=
    isPrefixOf_self_append _ _
  have hcons : hostPattern ++ rest = 'w' :: ("ww.youtube".data ++ rest) := rfl
  rw [hcons] at hpre
  rw [hcons]
  simp only [replaceAllFuel, hpre, if_true]
  rw [← hcons, List.drop_left]

/-- Host rewriting of a constructed watch URL whose identifier does not
contain the substring `www.youtube` (true of every well-formed video id)
replaces exactly the host and preserves path and query character for
character. -/
theorem rewriteHost_watchUrl (vid : String)
    (h : containsSub hostPattern vid.data = false) :
    rewriteHost (watchUrl vid) = "https://music.youtube.com/watch?v=" ++ vid := by
  have hdata : (watchUrl vid).data
      = "https://".data ++ (hostPattern ++ (".com/watch?v=".data ++ vid.data)) := rfl
  show String.mk (replaceAllFuel hostPattern hostReplacement
      (watchUrl vid).data.length (watchUrl vid).data)
    = "https://music.youtube.com/watch?v=" ++ vid
  rw [hdata]
  rw [replaceAllFuel_peel hostPattern hostReplacement "https://".data
      (hostPattern ++ (".com/watch?v=".data ++ vid.data))
      ((hostPattern ++ (".com/watch?v=".data ++ vid.data)).length)
      (("https://".data ++ (hostPattern ++ (".com/watch?v=".data ++ vid.data))).length)
      (by rw [List.length_append, Nat.add_comm])
      (by decide)]
  rw [replaceAllFuel_hit hostReplacement (".com/watch?v=".data ++ vid.data)
      ((".com/watch?v=".data ++ vid.data).length + 10)
      ((hostPattern ++ (".com/watch?v=".data ++ vid.data)).length)
      (by
        rw [List.length_append]
        rw [show hostPattern.length = 11 from by decide]
        omega)]
  rw [replaceAllFuel_peel hostPattern hostReplacement ".com/watch?v=".data vid.data
      (vid.data.length + 10)
      ((".com/watch?v=".data ++ vid.data).length + 10)
      (by
        rw [List.length_append]
        rw [show (".com/watch?v=".data).length = 13 from by decide]
        omega)
      (by decide)]
  rw [replaceAllFuel_of_not_contains hostPattern hostReplacement
      (vid.data.length + 10) vid.data h]
  rfl

/-! ## Claim theorems: host rewriting -/

/-- C8 counterexample: the dispatcher's rewrite is a plain substring
replacement of every occurrence of `www.youtube`, not a host-only rewrite.
For the enumerated (and probed) URL built from the entry id `www.youtubeAA`
— namely `https://www.youtube.com/watch?v=www.youtubeAA` — the claim demands
the output `https://music.youtube.com/watch?v=www.youtubeAA` (host rewritten,
query preserved character for character), but the run emits
`https://music.youtube.com/watch?v=music.youtubeAA`: the video identifier in
the query string was altered too. -/
theorem c8_counterexample :
    rewriteHost "https://www.youtube.com/watch?v=www.youtubeAA"
      = "https://music.youtube.com/watch?v=music.youtubeAA" ∧
    check_videos (.resolved "https://music.youtube.com/playlist?list=L")
        (.ret ⟨some (.list [some ⟨some "www.youtubeAA"⟩]), none⟩) none
        [.ok "https://www.youtube.com/watch?v=www.youtubeAA" true]
        "https://tinyurl.com/p"
      = .ok ((["https://music.youtube.com/watch?v=music.youtubeAA"], []), ⟨1, true, 8, 1⟩) ∧
    "https://music.youtube.com/watch?v=music.youtubeAA"
      ≠ "https://music.youtube.com/watch?v=www.youtubeAA" :=
  ⟨rfl, rfl, by decide⟩

/-- C8 amended: every URL in either output list of the dispatcher is obtained
from a probed (enumerated) URL by replacing every occurrence of the substring
`www.youtube` with `music.youtube`; for constructed watch URLs whose
identifier does not itself contain `www.youtube` (every well-formed id), this
replaces exactly the canonical watch-host and preserves path and query
character for character. -/
theorem c8_amended_host_rewrite (fetch : ExtractFlat) (ru : String)
    (cpu : Option Nat) (outs completed : List TaskOutcome)
    (hmatch : List.Forall₂ matchesTask (fetch_video_urls fetch ru) outs)
    (hperm : completed.Perm outs) :
    (∀ x, (x ∈ (check_videos_async fetch cpu completed ru).1.1 ∨
           x ∈ (check_videos_async fetch cpu completed ru).1.2) →
      ∃ v ∈ fetch_video_urls fetch ru, x = rewriteHost v) ∧
    (∀ vid : String, containsSub hostPattern vid.data = false →
      rewriteHost (watchUrl vid) = "https://music.youtube.com/watch?v=" ++ vid) :=
  ⟨outputs_are_rewrites fetch ru cpu outs completed hmatch hperm,
    fun vid h => rewriteHost_watchUrl vid h⟩

/-- C8 amended, witness: a one-entry playlist with a well-formed id; the
output is the rewrite of the enumerated URL, and on that URL the rewrite is
exactly a host substitution with the query preserved. -/
theorem c8_amended_witness :
    (∀ x, (x ∈ (check_videos_async (.ret ⟨some (.list [some ⟨some "abcdefghijk"⟩]), none⟩)
            none [.ok "https://www.youtube.com/watch?v=abcdefghijk" true]
            "https://music.youtube.com/playlist?list=L").1.1 ∨
           x ∈ (check_videos_async (.ret ⟨some (.list [some ⟨some "abcdefghijk"⟩]), none⟩)
            none [.ok "https://www.youtube.com/watch?v=abcdefghijk" true]
            "https://music.youtube.com/playlist?list=L").1.2) →
      ∃ v ∈ fetch_video_urls (.ret ⟨some (.list [some ⟨some "abcdefghijk"⟩]), none⟩)
          "https://music.youtube.com/playlist?list=L", x = rewriteHost v) ∧
    (∀ vid : String, containsSub hostPattern vid.data = false →
      rewriteHost (watchUrl vid) = "https://music.youtube.com/watch?v=" ++ vid) :=
  c8_amended_host_rewrite (.ret ⟨some (.list [some ⟨some "abcdefghijk"⟩]), none⟩)
    "https://music.youtube.com/playlist?list=L" none
    [.ok "https://www.youtube.com/watch?v=abcdefghijk" true]
    [.ok "https://www.youtube.com/watch?v=abcdefghijk" true]
    (List.Forall₂.cons rfl List.Forall₂.nil)
    (List.Perm.refl _)

end YTCheck
